import Mathlib

/-!
Verification of the embedding-set core (`src/full-package/core.py`, class `Embedx`)
against its natural-language specification.

Modelling conventions, shared by all definitions below:

* Floating-point arithmetic is modelled by exact real arithmetic (`ℝ`); numpy
  arrays are modelled by lists.  A 2-D numpy array of shape `(N, D)` becomes a
  `List (List ℝ)` of `N` rows (rectangularity is carried as a hypothesis where
  a theorem needs it).
* The object state of `Embedx` (`self.embeddings`, `self.n_samples`,
  `self.n_dim`, `self.verbose`, `self.timestamps`, `self.labels`) becomes the
  structure `State`.  Methods become functions `State → ...`; a method that can
  raise returns `Except PyError ...`; a Python method body that assigns to
  `self.*` returns the updated `State`.
* `print` calls guarded by `self.verbose` are modelled as a returned
  `List String` log (numeric interpolations are elided from the log text); the
  log is the only thing `verbose` influences.
* Calls into external libraries that this repository does not implement are
  modelled as oracle parameters:
  - the neighbor lists produced by `faiss.IndexFlatIP.search` /
    `sklearn NearestNeighbors.kneighbors` are an oracle `ℕ → List ℕ`
    (which indices the library ranks as neighbors of each query row), while the
    similarity/distance values those libraries attach to the chosen indices are
    computed exactly (inner product of the L2-normalized rows for the faiss
    backend, cosine distance for the sklearn backend, which is what those
    libraries compute);
  - `IsolationForest.fit_predict` becomes an oracle
    `ℝ → List (List ℝ) → List ℕ` giving the flagged row indices;
  - `np.load` / `np.loadtxt` become oracles `String → List (List ℝ)`.
* numpy fancy index assignment `mask[list(removing)] = False` accepts any
  integer index `i` with `-N ≤ i < N` (negative indices wrap to `N + i`) and
  raises `IndexError` otherwise; `normIdx` and `oobCheck` model exactly that.
* numpy boolean-mask row selection `a[mask]` is modelled by `maskFilter`,
  which keeps row `r` iff `mask[r]` is `true`.  (For a mask whose length
  differs from the array's, numpy raises; `maskFilter` instead truncates at
  the shorter length.  All theorems below about masked states carry the
  alignment hypotheses under which the two agree.)
* `embeddings.shape[1]` after row filtering is the old column count even when
  zero rows remain; `newDim` reproduces that, given that the recorded `nDim`
  was accurate beforehand.
-/

namespace Embedx

/-- The statistics dictionary returned by `Embedx.basic_stats`. -/
structure Stats where
  shape : ℕ × ℕ
  meanNorm : ℝ
  stdNorm : ℝ

/-- Python exceptions raised by the modelled code: `ValueError(msg)` raised
explicitly by `Embedx`, and numpy's `IndexError` from fancy indexing. -/
inductive PyError where
  | valueError : String → PyError
  | indexError : PyError

/-- The mutable state of an `Embedx` object: `self.embeddings`,
`self.n_samples`, `self.n_dim`, `self.verbose`, `self.timestamps`,
`self.labels`.  `τ` and `ℓ` are the element types of the two optional
parallel arrays. -/
structure State (τ ℓ : Type) where
  embeddings : List (List ℝ)
  nSamples : ℕ
  nDim : ℕ
  verbose : Bool
  timestamps : Option (List τ)
  labels : Option (List ℓ)

def strNpy : String := ".npy"

def strCsv : String := ".csv"

def strL2 : String := "l2"

def strL1 : String := "l1"

def msgUnknownFormat : String := "Unknown file format: must be .npy or .csv"

def msgUnknownMethod : String := "Cannot normalize with unknown method"

def logShape : String := "Embedding shape"

def logMeanNorm : String := "Mean norm"

def logStdNorm : String := "Std of norms"

def logFoundDuplicates : String := "Found near-duplicates"

def logRemovingDuplicates : String := "Removing near-duplicates"

def logFoundOutliers : String := "Found outliers"

def logRemovingOutliers : String := "Removing outliers"

def logZeroRemoved : String := "Zero embeddings removed."

def logRemoved : String := "embeddings have been removed."

def logNormalized : String := "normalization applied to embeddings."

/-- Model of Python `path.endswith(ext)`. -/
def endsWithExt (path ext : String) : Bool := List.isSuffixOf ext.data path.data

/-- Inner product of two rows (trailing elements of the longer row are
ignored; the modelled arrays are rectangular so lengths agree in practice). -/
def dot : List ℝ → List ℝ → ℝ
  | x :: xs, y :: ys => x * y + dot xs ys
  | _, _ => 0

/-- Sum of squares of a row. -/
def sumSq (v : List ℝ) : ℝ := dot v v

/-- Row L2 norm, as computed by `np.linalg.norm(..., axis=1)`. -/
noncomputable def l2norm (v : List ℝ) : ℝ := Real.sqrt (sumSq v)

/-- Row L1 norm, as computed by `np.sum(np.abs(...), axis=1)`. -/
def l1norm (v : List ℝ) : ℝ := (v.map (fun x => |x|)).sum

/-- `faiss.normalize_L2` applied to one row: divide by the row's L2 norm,
with no zero guard (in exact arithmetic a zero row maps to itself since
`x / 0 = 0` in `ℝ`). -/
noncomputable def faissNormalizeRow (v : List ℝ) : List ℝ :=
  v.map (fun x => x / l2norm v)

/-- Cosine similarity of two rows. -/
noncomputable def cosineSim (a b : List ℝ) : ℝ :=
  dot a b / (l2norm a * l2norm b)

/-- Mean of a list of reals, `np.mean`. -/
noncomputable def listMean (xs : List ℝ) : ℝ := xs.sum / xs.length

/-- Population standard deviation of a list of reals, `np.std`. -/
noncomputable def listStd (xs : List ℝ) : ℝ :=
  Real.sqrt (listMean (xs.map (fun x => (x - listMean xs) ^ 2)))

/-- `Embedx.__init__`: stores the matrix and the (unvalidated) parallel
arrays; `n_samples, n_dim = embeddings.shape`.  Note: the source performs no
length validation on `timestamps`/`labels`. -/
def mkEmbedx {τ ℓ : Type} (embeddings : List (List ℝ)) (verbose : Bool)
    (timestamps : Option (List τ)) (labels : Option (List ℓ)) : State τ ℓ :=
  ⟨embeddings, embeddings.length, (embeddings.headD []).length, verbose,
    timestamps, labels⟩

/-- `Embedx.set_labels`: replaces the labels wholesale, no validation. -/
def setLabels {τ ℓ : Type} (labels : Option (List ℓ)) (st : State τ ℓ) :
    State τ ℓ :=
  { st with labels := labels }

/-- `Embedx.set_timestamps`: replaces the timestamps wholesale, no
validation. -/
def setTimestamps {τ ℓ : Type} (timestamps : Option (List τ))
    (st : State τ ℓ) : State τ ℓ :=
  { st with timestamps := timestamps }

/-- `Embedx.get_dims`: recomputes and stores `n_samples`, `n_dim` from the
live matrix and returns them. -/
def getDims {τ ℓ : Type} (st : State τ ℓ) : (ℕ × ℕ) × State τ ℓ :=
  ((st.embeddings.length, (st.embeddings.headD []).length),
    { st with nSamples := st.embeddings.length,
              nDim := (st.embeddings.headD []).length })

/-- `Embedx.basic_stats`: per-row L2 norms, their mean and population std,
plus the matrix shape; prints three diagnostic lines when verbose. -/
noncomputable def basicStats {τ ℓ : Type} (st : State τ ℓ) :
    Stats × List String :=
  (⟨(st.embeddings.length, (st.embeddings.headD []).length),
      listMean (st.embeddings.map l2norm),
      listStd (st.embeddings.map l2norm)⟩,
    if st.verbose then [logShape, logMeanNorm, logStdNorm] else [])

/-- `Embedx.load_embeddings`: dispatch on the file extension; unknown
extensions raise `ValueError` (the spec's `FormatError`).  `npyLoad` and
`csvLoad` are the `np.load` / `np.loadtxt` oracles. -/
def loadEmbeddings (npyLoad csvLoad : String → List (List ℝ))
    (path : String) : Except PyError (List (List ℝ)) :=
  if endsWithExt path strNpy then Except.ok (npyLoad path)
  else if endsWithExt path strCsv then Except.ok (csvLoad path)
  else Except.error (PyError.valueError msgUnknownFormat)

/-- `Embedx.find_duplicates`.  `faissAvailable` selects the backend branch
(`FAISS_AVAILABLE` in the source).  `oracle i` is the library's ranked
neighbor index list for query row `i` (position 0 is normally the row
itself); the faiss branch searches `neighbors + 1` columns and attaches the
inner products of the L2-normalized copy, the sklearn branch searches
`neighbors` columns and attaches cosine distances.  Both branches drop
column 0 and keep `(i, j, sim)` iff `sim ≥ threshold` and `i < j`.
The state is returned unchanged: the faiss branch normalizes a copy. -/
noncomputable def findDuplicates {τ ℓ : Type} (faissAvailable : Bool)
    (oracle : ℕ → List ℕ) (threshold : ℝ) (neighbors : ℕ)
    (st : State τ ℓ) : List (ℕ × ℕ × ℝ) × State τ ℓ × List String :=
  let dups :=
    if faissAvailable then
      let emb := st.embeddings.map faissNormalizeRow
      (List.range emb.length).flatMap (fun i =>
        let indexRow := (oracle i).take (neighbors + 1)
        let distRow := indexRow.map (fun j => dot (emb.getD i []) (emb.getD j []))
        ((distRow.zip indexRow).drop 1).filterMap (fun p =>
          if threshold ≤ p.1 ∧ i < p.2 then some (i, p.2, p.1) else none))
    else
      (List.range st.embeddings.length).flatMap (fun i =>
        let indexRow := (oracle i).take neighbors
        let distRow := indexRow.map (fun j =>
          1 - cosineSim (st.embeddings.getD i []) (st.embeddings.getD j []))
        ((distRow.zip indexRow).drop 1).filterMap (fun p =>
          if threshold ≤ 1 - p.1 ∧ i < p.2 then some (i, p.2, 1 - p.1) else none))
  (dups, st, if st.verbose then [logFoundDuplicates] else [])

/-- `Embedx.find_outliers`: delegates to the `IsolationForest` oracle and
returns its flagged indices; the state is untouched. -/
def findOutliers {τ ℓ : Type} (isoOracle : ℝ → List (List ℝ) → List ℕ)
    (contamination : ℝ) (st : State τ ℓ) :
    List ℕ × State τ ℓ × List String :=
  (isoOracle contamination st.embeddings, st,
    if st.verbose then [logFoundOutliers] else [])

/-- numpy's normalization of one fancy index against length `n`: negative
indices wrap by `n`. -/
def normIdx (n : ℕ) (i : ℤ) : ℤ := if i < 0 then (n : ℤ) + i else i

/-- True iff some index is out of numpy's accepted range `[-n, n)` for
`mask[list(removing)] = False`; numpy raises `IndexError` in that case. -/
def oobCheck (n : ℕ) (removing : List ℤ) : Bool :=
  removing.any (fun i => decide (i < -(n : ℤ) ∨ (n : ℤ) ≤ i))

/-- The keep-mask `mask = np.ones(n); mask[list(removing)] = False`:
position `r` stays `true` iff no (wrapped) index in `removing` hits `r`. -/
def keepMask (n : ℕ) (removing : List ℤ) : List Bool :=
  (List.range n).map (fun r : ℕ => decide (∀ i ∈ removing, normIdx n i ≠ (r : ℤ)))

/-- numpy boolean-mask row selection `a[mask]`. -/
def maskFilter {α : Type} (mask : List Bool) (xs : List α) : List α :=
  ((mask.zip xs).filter (fun p => p.1)).map (fun p => p.2)

/-- `self.embeddings.shape[1]` after row filtering: the first surviving
row's width, or (matching numpy, which keeps the column count of an empty
selection) the previously recorded width when no row survives. -/
def newDim : List (List ℝ) → ℕ → ℕ
  | [], d => d
  | r :: _, _ => r.length

/-- The successful branch of `Embedx._remove_indices`: one keep-mask built
from `n_samples`, applied identically to the matrix and to each present
parallel array, then `n_dim` and `n_samples` recomputed. -/
noncomputable def removeStep {τ ℓ : Type} (removing : List ℤ)
    (st : State τ ℓ) : State τ ℓ :=
  let mask := keepMask st.nSamples removing
  let emb := maskFilter mask st.embeddings
  ⟨emb, emb.length, newDim emb st.nDim, st.verbose,
    st.timestamps.map (maskFilter mask), st.labels.map (maskFilter mask)⟩

/-- `Embedx._remove_indices`: empty index set returns `None` immediately
(bare `return`); an index outside `[-N, N)` raises `IndexError` at the mask
assignment, before any `self.*` field is written; otherwise the mask is
applied and the method returns `self.basic_stats()` on the new state. -/
noncomputable def removeIndices {τ ℓ : Type} (removing : List ℤ)
    (st : State τ ℓ) : Except PyError (Option Stats × State τ ℓ × List String) :=
  if removing.length = 0 then
    Except.ok (none, st, if st.verbose then [logZeroRemoved] else [])
  else if oobCheck st.nSamples removing then
    Except.error PyError.indexError
  else
    let st2 := removeStep removing st
    let bs := basicStats st2
    Except.ok (some bs.1, st2,
      (if st.verbose then [logRemoved] else []) ++ bs.2)

/-- The set `removing = {index for (_, index, _) in duplicates}` of
`Embedx.remove_duplicates` (Python set semantics: each index once). -/
noncomputable def dupSeconds {τ ℓ : Type} (faissAvailable : Bool)
    (oracle : ℕ → List ℕ) (threshold : ℝ) (neighbors : ℕ)
    (st : State τ ℓ) : List ℕ :=
  ((findDuplicates faissAvailable oracle threshold neighbors st).1.map
    (fun t => t.2.1)).dedup

/-- `Embedx.remove_duplicates`: run `find_duplicates`, collect the set of
second pair members, remove them via `_remove_indices` (the Python method
itself returns `None`, so the stats from `_remove_indices` are dropped). -/
noncomputable def removeDuplicates {τ ℓ : Type} (faissAvailable : Bool)
    (oracle : ℕ → List ℕ) (threshold : ℝ) (neighbors : ℕ)
    (st : State τ ℓ) : Except PyError (State τ ℓ × List String) :=
  let fd := findDuplicates faissAvailable oracle threshold neighbors st
  let removing := dupSeconds faissAvailable oracle threshold neighbors st
  Except.map
    (fun r => (r.2.1,
      fd.2.2 ++ (if st.verbose then [logRemovingDuplicates] else []) ++ r.2.2))
    (removeIndices (removing.map (fun j : ℕ => (j : ℤ))) st)

/-- `Embedx.remove_outliers`: run `find_outliers`, remove the flagged rows
via `_remove_indices` (the Python method returns `None`). -/
noncomputable def removeOutliers {τ ℓ : Type} (isoOracle : ℝ → List (List ℝ) → List ℕ)
    (contamination : ℝ) (st : State τ ℓ) :
    Except PyError (State τ ℓ × List String) :=
  let fo := findOutliers isoOracle contamination st
  Except.map
    (fun r => (r.2.1,
      fo.2.2 ++ (if st.verbose then [logRemovingOutliers] else []) ++ r.2.2))
    (removeIndices (fo.1.map (fun j : ℕ => (j : ℤ))) st)

/-- One row divided by its (zero-guarded) norm: the source replaces zero
norms by 1 (`norms[norms == 0] = 1`) before dividing. -/
noncomputable def normalizeRowBy (n : ℝ) (v : List ℝ) : List ℝ :=
  v.map (fun x => x / (if n = 0 then 1 else n))

/-- `Embedx.normalize`: divide each row by its L2 or L1 norm (zero norms
replaced by 1); any other method raises `ValueError` before the matrix is
reassigned. -/
noncomputable def normalize {τ ℓ : Type} (method : String) (st : State τ ℓ) :
    Except PyError (State τ ℓ × List String) :=
  if method = strL2 then
    Except.ok ({ st with embeddings :=
        st.embeddings.map (fun v => normalizeRowBy (l2norm v) v) },
      if st.verbose then [logNormalized] else [])
  else if method = strL1 then
    Except.ok ({ st with embeddings :=
        st.embeddings.map (fun v => normalizeRowBy (l1norm v) v) },
      if st.verbose then [logNormalized] else [])
  else Except.error (PyError.valueError msgUnknownMethod)

/-- Forget the verbose flag (used to compare states across verbose settings). -/
def devb {τ ℓ : Type} (st : State τ ℓ) : State τ ℓ := { st with verbose := false }

/-- Concrete two-row state (rows `[1]` and `[1]`, exact duplicates) used by
witnesses. -/
noncomputable def wStDup : State ℤ ℤ := ⟨[[1], [1]], 2, 1, false, none, none⟩

/-- Neighbor oracle for `wStDup`: each query sees itself first, then the
other row. -/
def wOracle : ℕ → List ℕ := fun i => if i = 0 then [0, 1] else [1, 0]

/-- Concrete three-row state with timestamps and labels, used by witnesses. -/
noncomputable def wStThree : State ℤ ℤ :=
  ⟨[[0], [7], [0]], 3, 1, false, some [10, 20, 30], some [5, 6, 7]⟩

/-- Concrete two-row state without parallel arrays, used by witnesses and
counterexamples. -/
noncomputable def wStTwo : State ℤ ℤ := ⟨[[0], [0]], 2, 1, false, none, none⟩

def strBogus : String := "bogus"

def txtPath : String := "embeddings.txt"

theorem dot_self_nonneg (v : List ℝ) : 0 ≤ dot v v := by
  induction v with
  | nil => simp [dot]
  | cons x xs ih => simpa [dot] using add_nonneg (mul_self_nonneg x) ih

theorem sumSq_nonneg (v : List ℝ) : 0 ≤ sumSq v := dot_self_nonneg v

theorem l2norm_mul_self (v : List ℝ) : l2norm v * l2norm v = sumSq v :=
  Real.mul_self_sqrt (sumSq_nonneg v)

theorem dot_map_div (a : List ℝ) (b : List ℝ) (u v : ℝ) :
    dot (a.map (fun x => x / u)) (b.map (fun x => x / v)) = dot a b / (u * v) := by
  induction a generalizing b with
  | nil => simp [dot]
  | cons x xs ih =>
    cases b with
    | nil => simp [dot]
    | cons y ys =>
      simp only [List.map_cons, dot, ih]
      rw [div_mul_div_comm, div_add_div_same]

theorem sumSq_map_div (v : List ℝ) (c : ℝ) :
    sumSq (v.map (fun x => x / c)) = sumSq v / (c * c) :=
  dot_map_div v v c c

theorem dot_faissNormalize (a b : List ℝ) :
    dot (faissNormalizeRow a) (faissNormalizeRow b) = cosineSim a b :=
  dot_map_div a b (l2norm a) (l2norm b)

theorem sumSq_eq_zero_of_all_zero (v : List ℝ) (h : ∀ x ∈ v, x = 0) :
    sumSq v = 0 := by
  induction v with
  | nil => simp [sumSq, dot]
  | cons x xs ih =>
    have hx : x = 0 := h x (by simp)
    have hxs : sumSq xs = 0 := ih (fun y hy => h y (by simp [hy]))
    simp [sumSq, dot] at hxs ⊢
    simp [hx, hxs]

theorem l2norm_eq_zero_of_all_zero (v : List ℝ) (h : ∀ x ∈ v, x = 0) :
    l2norm v = 0 := by
  simp [l2norm, sumSq_eq_zero_of_all_zero v h]

theorem l2norm_ne_zero_of_sumSq_ne_zero (v : List ℝ) (h : sumSq v ≠ 0) :
    l2norm v ≠ 0 := by
  have hpos : 0 < sumSq v := lt_of_le_of_ne (sumSq_nonneg v) (Ne.symm h)
  simpa [l2norm] using ne_of_gt (Real.sqrt_pos.mpr hpos)

theorem maskFilter_nil {α : Type} (mask : List Bool) :
    maskFilter mask ([] : List α) = [] := by
  simp [maskFilter]

theorem maskFilter_nil_mask {α : Type} (xs : List α) :
    maskFilter [] xs = [] := by
  simp [maskFilter]

theorem maskFilter_cons {α : Type} (b : Bool) (m : List Bool) (x : α)
    (xs : List α) :
    maskFilter (b :: m) (x :: xs) =
      if b then x :: maskFilter m xs else maskFilter m xs := by
  cases b <;> simp [maskFilter, List.zip, List.filter]

theorem maskFilter_sublist {α : Type} (mask : List Bool) (xs : List α) :
    (maskFilter mask xs).Sublist xs := by
  induction mask generalizing xs with
  | nil => simp [maskFilter_nil_mask]
  | cons b t ih =>
    cases xs with
    | nil => simp [maskFilter_nil]
    | cons x xt =>
      rw [maskFilter_cons]
      cases b with
      | true => simpa using (ih xt).cons₂ x
      | false => simpa using (ih xt).cons x

theorem maskFilter_length_congr {α β : Type} (mask : List Bool)
    (xs : List α) (ys : List β) (h : xs.length = ys.length) :
    (maskFilter mask xs).length = (maskFilter mask ys).length := by
  induction mask generalizing xs ys with
  | nil => simp [maskFilter_nil_mask]
  | cons b t ih =>
    cases xs with
    | nil =>
      cases ys with
      | nil => rfl
      | cons y yt => simp at h
    | cons x xt =>
      cases ys with
      | nil => simp at h
      | cons y yt =>
        have h2 : xt.length = yt.length := by simpa using h
        rw [maskFilter_cons, maskFilter_cons]
        cases b <;> simp [ih xt yt h2]

theorem maskFilter_zip {α β : Type} (mask : List Bool) (xs : List α)
    (ys : List β) :
    List.zip (maskFilter mask xs) (maskFilter mask ys) =
      maskFilter mask (List.zip xs ys) := by
  induction mask generalizing xs ys with
  | nil => simp [maskFilter_nil_mask]
  | cons b t ih =>
    cases xs with
    | nil => simp [maskFilter_nil, maskFilter_nil_mask]
    | cons x xt =>
      cases ys with
      | nil => simp [maskFilter_nil, maskFilter_nil_mask]
      | cons y yt =>
        rw [List.zip_cons_cons, maskFilter_cons, maskFilter_cons, maskFilter_cons]
        cases b with
        | true => simp [List.zip_cons_cons, ih]
        | false => simp [ih]

theorem maskFilter_getD_mem {α : Type} (mask : List Bool) (xs : List α)
    (r : ℕ) (d : α) (hr : r < xs.length) (hm : mask.getD r false = true) :
    xs.getD r d ∈ maskFilter mask xs := by
  induction mask generalizing xs r with
  | nil => simp at hm
  | cons b t ih =>
    cases xs with
    | nil => simp at hr
    | cons x xt =>
      rw [maskFilter_cons]
      cases r with
      | zero =>
        simp at hm
        simp [hm]
      | succ r2 =>
        have hmem := ih xt r2 (by simpa using hr) (by simpa using hm)
        have hget : (x :: xt).getD (r2 + 1) d = xt.getD r2 d := rfl
        rw [hget]
        cases b with
        | true =>
          rw [if_pos rfl]
          exact List.mem_cons_of_mem x hmem
        | false =>
          rw [if_neg (by simp)]
          exact hmem

theorem maskFilter_alltrue {α : Type} (n : ℕ) (xs : List α)
    (h : xs.length ≤ n) :
    maskFilter (List.replicate n true) xs = xs := by
  induction xs generalizing n with
  | nil => simp [maskFilter_nil]
  | cons x xt ih =>
    cases n with
    | zero => simp at h
    | succ m =>
      rw [List.replicate_succ, maskFilter_cons]
      simp [ih m (by simpa using h)]

theorem keepMask_length (n : ℕ) (removing : List ℤ) :
    (keepMask n removing).length = n := by
  simp [keepMask]

theorem keepMask_nil (n : ℕ) :
    keepMask n [] = List.replicate n true := by
  simp [keepMask, List.map_const', List.eq_replicate_iff]

theorem keepMask_getD (n : ℕ) (removing : List ℤ) (r : ℕ) (h : r < n) :
    (keepMask n removing).getD r false =
      decide (∀ i ∈ removing, normIdx n i ≠ (r : ℤ)) := by
  have hr : r < (keepMask n removing).length := by
    rw [keepMask_length]; exact h
  rw [List.getD_eq_getElem _ _ hr]
  simp only [keepMask, List.getElem_map, List.getElem_range]

theorem oobCheck_eq_true_iff (n : ℕ) (removing : List ℤ) :
    oobCheck n removing = true ↔
      ∃ i ∈ removing, i < -(n : ℤ) ∨ (n : ℤ) ≤ i := by
  simp [oobCheck]

theorem zip_map_fst {α β : Type} (l : List α) (g : α → β) (p : β × α)
    (h : p ∈ List.zip (l.map g) l) : p.1 = g p.2 := by
  induction l with
  | nil => simp at h
  | cons a t ih =>
    simp only [List.map_cons, List.zip_cons_cons, List.mem_cons] at h
    rcases h with h | h
    · simp [h]
    · exact ih h

theorem getD_map_faissNormalize (l : List (List ℝ)) (n : ℕ) :
    (l.map faissNormalizeRow).getD n [] = faissNormalizeRow (l.getD n []) := by
  induction l generalizing n with
  | nil => simp [faissNormalizeRow]
  | cons a t ih =>
    cases n with
    | zero => rfl
    | succ m => simpa using ih m

theorem findDuplicates_mem {τ ℓ : Type} (fa : Bool) (oracle : ℕ → List ℕ)
    (th : ℝ) (k : ℕ) (st : State τ ℓ) (i j : ℕ) (s : ℝ)
    (h : (i, j, s) ∈ (findDuplicates fa oracle th k st).1) :
    i < j ∧ th ≤ s ∧
      s = cosineSim (st.embeddings.getD i []) (st.embeddings.getD j []) := by
  cases fa with
  | true =>
    simp only [findDuplicates, if_pos, List.mem_flatMap, List.mem_range,
      List.mem_filterMap] at h
    rcases h with ⟨i2, hi2, p, hp, hf⟩
    by_cases hc : th ≤ p.1 ∧ i2 < p.2
    · rw [if_pos hc] at hf
      have hinj : (i2, p.2, p.1) = (i, j, s) := Option.some.inj hf
      have hi : i2 = i := congrArg Prod.fst hinj
      have hj : p.2 = j := congrArg (fun q => q.2.1) hinj
      have hs : p.1 = s := congrArg (fun q => q.2.2) hinj
      have hpz : p ∈ List.zip
          ((((oracle i2).take (k + 1))).map (fun j2 =>
            dot ((st.embeddings.map faissNormalizeRow).getD i2 [])
              ((st.embeddings.map faissNormalizeRow).getD j2 [])))
          ((oracle i2).take (k + 1)) :=
        (List.drop_sublist 1 _).mem hp
      have hval := zip_map_fst _ _ _ hpz
      refine ⟨hi ▸ hj ▸ hc.2, hs ▸ hc.1, ?_⟩
      rw [← hs, hval, getD_map_faissNormalize, getD_map_faissNormalize,
        dot_faissNormalize, hi, hj]
    · rw [if_neg hc] at hf
      exact absurd hf (by simp)
  | false =>
    simp only [findDuplicates, if_neg, Bool.false_eq_true, if_false,
      List.mem_flatMap, List.mem_range, List.mem_filterMap] at h
    rcases h with ⟨i2, hi2, p, hp, hf⟩
    by_cases hc : th ≤ 1 - p.1 ∧ i2 < p.2
    · rw [if_pos hc] at hf
      have hinj : (i2, p.2, 1 - p.1) = (i, j, s) := Option.some.inj hf
      have hi : i2 = i := congrArg Prod.fst hinj
      have hj : p.2 = j := congrArg (fun q => q.2.1) hinj
      have hs : 1 - p.1 = s := congrArg (fun q => q.2.2) hinj
      have hpz : p ∈ List.zip
          ((((oracle i2).take k)).map (fun j2 =>
            1 - cosineSim (st.embeddings.getD i2 [])
              (st.embeddings.getD j2 [])))
          ((oracle i2).take k) :=
        (List.drop_sublist 1 _).mem hp
      have hval := zip_map_fst _ _ _ hpz
      refine ⟨hi ▸ hj ▸ hc.2, hs ▸ hc.1, ?_⟩
      rw [← hs, hval, hi, hj]
      ring
    · rw [if_neg hc] at hf
      exact absurd hf (by simp)

/-- Claim C2: every triple `(i, j, s)` returned by `find_duplicates`
(either backend, any neighbor oracle, any threshold and neighbor count)
satisfies `i < j` and `s ≥ threshold`, and `s` is the cosine similarity of
rows `i` and `j`; in particular no triple with `i ≥ j` is returned. -/
theorem c2_find_duplicates_triples {τ ℓ : Type} (fa : Bool)
    (oracle : ℕ → List ℕ) (th : ℝ) (k : ℕ) (st : State τ ℓ)
    (i j : ℕ) (s : ℝ)
    (h : (i, j, s) ∈ (findDuplicates fa oracle th k st).1) :
    i < j ∧ th ≤ s ∧
      s = cosineSim (st.embeddings.getD i []) (st.embeddings.getD j []) :=
  findDuplicates_mem fa oracle th k st i j s h

/-- Claim C10: `find_duplicates` and `find_outliers` are pure observers:
they return the state exactly as given (matrix, timestamps, labels, counts
all unchanged); the faiss branch L2-normalizes only a copy. -/
theorem c10_finders_pure {τ ℓ : Type} (fa : Bool) (oracle : ℕ → List ℕ)
    (isoOracle : ℝ → List (List ℝ) → List ℕ) (th c : ℝ) (k : ℕ)
    (st : State τ ℓ) :
    (findDuplicates fa oracle th k st).2.1 = st ∧
      (findOutliers isoOracle c st).2.1 = st := ⟨rfl, rfl⟩

theorem getD_mem {α : Type} (l : List α) (m : ℕ) (d : α) (h : m < l.length) :
    l.getD m d ∈ l := by
  rw [List.getD_eq_getElem _ _ h]
  exact List.getElem_mem h

theorem removeIndices_eval {τ ℓ : Type} (removing : List ℤ) (st : State τ ℓ) :
    removeIndices removing st =
      if removing.length = 0 then
        Except.ok (none, st, if st.verbose then [logZeroRemoved] else [])
      else if oobCheck st.nSamples removing then
        Except.error PyError.indexError
      else
        Except.ok (some (basicStats (removeStep removing st)).1,
          removeStep removing st,
          (if st.verbose then [logRemoved] else []) ++
            (basicStats (removeStep removing st)).2) := rfl

theorem removeIndices_ok {τ ℓ : Type} (removing : List ℤ) (st : State τ ℓ)
    (hne : removing ≠ []) (hv : oobCheck st.nSamples removing = false) :
    removeIndices removing st =
      Except.ok (some (basicStats (removeStep removing st)).1,
        removeStep removing st,
        (if st.verbose then [logRemoved] else []) ++
          (basicStats (removeStep removing st)).2) := by
  have hlen : ¬ removing.length = 0 := by
    simpa [List.length_eq_zero] using hne
  rw [removeIndices_eval, if_neg hlen, hv]
  simp

theorem wStDup_find :
    (findDuplicates true wOracle (1/2) 1 wStDup).1 = [(0, 1, (1 : ℝ))] := by
  simp only [findDuplicates, wOracle, wStDup]
  norm_num [List.range_succ, faissNormalizeRow, l2norm, sumSq, dot,
    Real.sqrt_one]
  simp only [List.filterMap_cons, List.filterMap_nil]
  rw [if_pos (by norm_num)]
  rfl

/-- Witness for C2: on the duplicate-row state `wStDup` the faiss backend
returns the triple `(0, 1, 1)` and the claim's conclusion holds for it. -/
theorem c2_witness :
    (((0 : ℕ), (1 : ℕ), (1 : ℝ)) ∈
        (findDuplicates true wOracle (1/2) 1 wStDup).1) ∧
      (0 < 1 ∧ (1/2 : ℝ) ≤ 1 ∧
        (1 : ℝ) = cosineSim (wStDup.embeddings.getD 0 [])
          (wStDup.embeddings.getD 1 [])) := by
  have hm : ((0 : ℕ), (1 : ℕ), (1 : ℝ)) ∈
      (findDuplicates true wOracle (1/2) 1 wStDup).1 := by
    rw [wStDup_find]
    simp
  exact ⟨hm, c2_find_duplicates_triples true wOracle (1/2) 1 wStDup 0 1 1 hm⟩

/-- Claim C1: on an aligned state (parallel arrays match the matrix's row
count), `_remove_indices` with in-range indices succeeds and applies the one
keep-mask built from `n_samples` identically to the matrix and to each
present parallel array; afterwards the row counts agree and the surviving
(row, timestamp) and (row, label) pairs are exactly a mask-selection (hence
a sublist) of the original pairs, so each surviving row keeps the metadata
of its original source row.  (`remove_duplicates` and `remove_outliers`
route through `_remove_indices`; see `removeDuplicates`/`removeOutliers`,
whose definitions call `removeIndices` and are covered by claim C3.) -/
theorem c1_remove_indices_alignment {τ ℓ : Type} (removing : List ℤ)
    (st : State τ ℓ)
    (hn : st.nSamples = st.embeddings.length)
    (hts : ∀ ts, st.timestamps = some ts → ts.length = st.embeddings.length)
    (hlb : ∀ lb, st.labels = some lb → lb.length = st.embeddings.length)
    (hv : oobCheck st.nSamples removing = false) :
    ∃ o st2 lg, removeIndices removing st = Except.ok (o, st2, lg) ∧
      st2.embeddings =
        maskFilter (keepMask st.nSamples removing) st.embeddings ∧
      st2.timestamps =
        st.timestamps.map (maskFilter (keepMask st.nSamples removing)) ∧
      st2.labels =
        st.labels.map (maskFilter (keepMask st.nSamples removing)) ∧
      (∀ ts2, st2.timestamps = some ts2 →
        ts2.length = st2.embeddings.length) ∧
      (∀ lb2, st2.labels = some lb2 → lb2.length = st2.embeddings.length) ∧
      (∀ ts ts2, st.timestamps = some ts → st2.timestamps = some ts2 →
        List.zip st2.embeddings ts2 =
          maskFilter (keepMask st.nSamples removing)
            (List.zip st.embeddings ts) ∧
        (List.zip st2.embeddings ts2).Sublist (List.zip st.embeddings ts)) ∧
      (∀ lb lb2, st.labels = some lb → st2.labels = some lb2 →
        List.zip st2.embeddings lb2 =
          maskFilter (keepMask st.nSamples removing)
            (List.zip st.embeddings lb) ∧
        (List.zip st2.embeddings lb2).Sublist (List.zip st.embeddings lb)) := by
  by_cases hemp : removing = []
  · subst hemp
    refine ⟨none, st, if st.verbose then [logZeroRemoved] else [], rfl,
      ?_, ?_, ?_, ?_, ?_, ?_, ?_⟩
    · rw [keepMask_nil, maskFilter_alltrue st.nSamples st.embeddings hn.ge]
    · rw [keepMask_nil]
      cases hcase : st.timestamps with
      | none => rfl
      | some ts =>
        have hlen : ts.length ≤ st.nSamples := by
          rw [hn]
          exact (hts ts hcase).le
        simp [maskFilter_alltrue st.nSamples ts hlen]
    · rw [keepMask_nil]
      cases hcase : st.labels with
      | none => rfl
      | some lb =>
        have hlen : lb.length ≤ st.nSamples := by
          rw [hn]
          exact (hlb lb hcase).le
        simp [maskFilter_alltrue st.nSamples lb hlen]
    · exact hts
    · exact hlb
    · intro ts ts2 h1 h2
      have hts2 : ts2 = ts := by
        rw [h1] at h2
        exact (Option.some.inj h2).symm
      subst hts2
      have hzlen : (List.zip st.embeddings ts2).length ≤ st.nSamples := by
        rw [List.length_zip]
        exact le_trans (min_le_left _ _) hn.ge
      refine ⟨?_, List.Sublist.refl _⟩
      rw [keepMask_nil, maskFilter_alltrue st.nSamples _ hzlen]
    · intro lb lb2 h1 h2
      have hlb2 : lb2 = lb := by
        rw [h1] at h2
        exact (Option.some.inj h2).symm
      subst hlb2
      have hzlen : (List.zip st.embeddings lb2).length ≤ st.nSamples := by
        rw [List.length_zip]
        exact le_trans (min_le_left _ _) hn.ge
      refine ⟨?_, List.Sublist.refl _⟩
      rw [keepMask_nil, maskFilter_alltrue st.nSamples _ hzlen]
  · have hok := removeIndices_ok removing st hemp hv
    refine ⟨_, _, _, hok, rfl, rfl, rfl, ?_, ?_, ?_, ?_⟩
    · intro ts2 h2
      simp only [removeStep] at h2 ⊢
      cases hcase : st.timestamps with
      | none => rw [hcase] at h2; simp at h2
      | some ts =>
        rw [hcase] at h2
        simp only [Option.map_some'] at h2
        rw [← Option.some.inj h2]
        exact maskFilter_length_congr _ ts st.embeddings (hts ts hcase)
    · intro lb2 h2
      simp only [removeStep] at h2 ⊢
      cases hcase : st.labels with
      | none => rw [hcase] at h2; simp at h2
      | some lb =>
        rw [hcase] at h2
        simp only [Option.map_some'] at h2
        rw [← Option.some.inj h2]
        exact maskFilter_length_congr _ lb st.embeddings (hlb lb hcase)
    · intro ts ts2 h1 h2
      simp only [removeStep, h1, Option.map_some'] at h2
      rw [← Option.some.inj h2]
      have h3 : List.zip ((removeStep removing st).embeddings)
          (maskFilter (keepMask st.nSamples removing) ts) =
          maskFilter (keepMask st.nSamples removing)
            (List.zip st.embeddings ts) :=
        maskFilter_zip _ st.embeddings ts
      rw [h3]
      exact ⟨rfl, maskFilter_sublist _ _⟩
    · intro lb lb2 h1 h2
      simp only [removeStep, h1, Option.map_some'] at h2
      rw [← Option.some.inj h2]
      have h3 : List.zip ((removeStep removing st).embeddings)
          (maskFilter (keepMask st.nSamples removing) lb) =
          maskFilter (keepMask st.nSamples removing)
            (List.zip st.embeddings lb) :=
        maskFilter_zip _ st.embeddings lb
      rw [h3]
      exact ⟨rfl, maskFilter_sublist _ _⟩

/-- Witness for C1: removing row 1 from the concrete three-row state with
timestamps and labels present. -/
theorem c1_witness :
    ∃ o st2 lg, removeIndices [(1 : ℤ)] wStThree = Except.ok (o, st2, lg) ∧
      st2.embeddings =
        maskFilter (keepMask wStThree.nSamples [(1 : ℤ)])
          wStThree.embeddings ∧
      st2.timestamps =
        wStThree.timestamps.map
          (maskFilter (keepMask wStThree.nSamples [(1 : ℤ)])) ∧
      st2.labels =
        wStThree.labels.map
          (maskFilter (keepMask wStThree.nSamples [(1 : ℤ)])) ∧
      (∀ ts2, st2.timestamps = some ts2 →
        ts2.length = st2.embeddings.length) ∧
      (∀ lb2, st2.labels = some lb2 → lb2.length = st2.embeddings.length) ∧
      (∀ ts ts2, wStThree.timestamps = some ts → st2.timestamps = some ts2 →
        List.zip st2.embeddings ts2 =
          maskFilter (keepMask wStThree.nSamples [(1 : ℤ)])
            (List.zip wStThree.embeddings ts) ∧
        (List.zip st2.embeddings ts2).Sublist
          (List.zip wStThree.embeddings ts)) ∧
      (∀ lb lb2, wStThree.labels = some lb → st2.labels = some lb2 →
        List.zip st2.embeddings lb2 =
          maskFilter (keepMask wStThree.nSamples [(1 : ℤ)])
            (List.zip wStThree.embeddings lb) ∧
        (List.zip st2.embeddings lb2).Sublist
          (List.zip wStThree.embeddings lb)) := by
  refine c1_remove_indices_alignment [(1 : ℤ)] wStThree rfl ?_ ?_ (by decide)
  · intro ts h
    rw [← Option.some.inj h]
    rfl
  · intro lb h
    rw [← Option.some.inj h]
    rfl

/-- Claim C3: `remove_duplicates` routes exactly the set of second elements
`j` of the triples returned by `find_duplicates` into `_remove_indices`
(each such `j` once, set semantics); every removed index is the
higher-indexed member of some returned pair, row 0 is never removed, and any
row that is never the higher-indexed member of a returned pair (in
particular the lowest-indexed row of any duplicate cluster) survives the
removal. -/
theorem c3_remove_duplicates_seconds {τ ℓ : Type} (fa : Bool)
    (oracle : ℕ → List ℕ) (th : ℝ) (k : ℕ) (st : State τ ℓ)
    (hn : st.nSamples = st.embeddings.length)
    (hvalid : ∀ j ∈ dupSeconds fa oracle th k st, j < st.nSamples) :
    (removeDuplicates fa oracle th k st =
      Except.map (fun r => (r.2.1,
        (findDuplicates fa oracle th k st).2.2 ++
          (if st.verbose then [logRemovingDuplicates] else []) ++ r.2.2))
        (removeIndices
          ((dupSeconds fa oracle th k st).map (fun j : ℕ => (j : ℤ))) st)) ∧
    (∀ j, j ∈ dupSeconds fa oracle th k st ↔
      ∃ i s, (i, j, s) ∈ (findDuplicates fa oracle th k st).1) ∧
    (∀ i j s, (i, j, s) ∈ (findDuplicates fa oracle th k st).1 →
      i < j ∧ j ∈ dupSeconds fa oracle th k st) ∧
    (dupSeconds fa oracle th k st).Nodup ∧
    0 ∉ dupSeconds fa oracle th k st ∧
    (∀ m, m < st.nSamples → m ∉ dupSeconds fa oracle th k st →
      ∃ st2 lg, removeDuplicates fa oracle th k st = Except.ok (st2, lg) ∧
        st.embeddings.getD m [] ∈ st2.embeddings) := by
  have hchar : ∀ j, j ∈ dupSeconds fa oracle th k st ↔
      ∃ i s, (i, j, s) ∈ (findDuplicates fa oracle th k st).1 := by
    intro j
    simp only [dupSeconds, List.mem_dedup, List.mem_map]
    constructor
    · rintro ⟨t, ht, rfl⟩
      exact ⟨t.1, t.2.2, ht⟩
    · rintro ⟨i, s, his⟩
      exact ⟨(i, j, s), his, rfl⟩
  refine ⟨rfl, hchar, ?_, List.nodup_dedup _, ?_, ?_⟩
  · intro i j s h
    exact ⟨(findDuplicates_mem fa oracle th k st i j s h).1,
      (hchar j).mpr ⟨i, s, h⟩⟩
  · intro h0
    obtain ⟨i, s, his⟩ := (hchar 0).mp h0
    exact absurd (findDuplicates_mem fa oracle th k st i 0 s his).1
      (Nat.not_lt_zero i)
  · intro m hm hnot
    by_cases hemp : dupSeconds fa oracle th k st = []
    · refine ⟨st, (findDuplicates fa oracle th k st).2.2 ++
        (if st.verbose then [logRemovingDuplicates] else []) ++
        (if st.verbose then [logZeroRemoved] else []), ?_, ?_⟩
      · simp only [removeDuplicates, hemp, List.map_nil]
        rw [removeIndices_eval]
        simp [Except.map]
      · exact getD_mem st.embeddings m [] (hn ▸ hm)
    · have hne : (dupSeconds fa oracle th k st).map (fun j : ℕ => (j : ℤ)) ≠ [] := by
        simp only [ne_eq, List.map_eq_nil_iff]
        exact hemp
      have hv : oobCheck st.nSamples
          ((dupSeconds fa oracle th k st).map (fun j : ℕ => (j : ℤ))) = false := by
        simp only [oobCheck, List.any_eq_false, decide_eq_true_eq]
        intro x hx
        rw [List.mem_map] at hx
        obtain ⟨j, hj, rfl⟩ := hx
        push_neg
        constructor
        · exact le_trans (neg_nonpos.mpr (Int.ofNat_nonneg st.nSamples))
            (Int.ofNat_nonneg j)
        · exact_mod_cast hvalid j hj
      have hok := removeIndices_ok _ st hne hv
      have hrd : removeDuplicates fa oracle th k st =
          Except.ok (removeStep ((dupSeconds fa oracle th k st).map
              (fun j : ℕ => (j : ℤ))) st,
            (findDuplicates fa oracle th k st).2.2 ++
              (if st.verbose then [logRemovingDuplicates] else []) ++
              ((if st.verbose then [logRemoved] else []) ++
                (basicStats (removeStep ((dupSeconds fa oracle th k st).map
                  (fun j : ℕ => (j : ℤ))) st)).2)) := by
        simp only [removeDuplicates]
        rw [hok]
        rfl
      refine ⟨_, _, hrd, ?_⟩
      show st.embeddings.getD m [] ∈ maskFilter
        (keepMask st.nSamples ((dupSeconds fa oracle th k st).map
          (fun j : ℕ => (j : ℤ)))) st.embeddings
      apply maskFilter_getD_mem _ _ _ _ (hn ▸ hm)
      rw [keepMask_getD _ _ _ hm]
      simp only [decide_eq_true_eq]
      intro x hx
      rw [List.mem_map] at hx
      obtain ⟨j, hj, rfl⟩ := hx
      have hj0 : ¬ ((j : ℤ) < 0) := by
        simp
      rw [normIdx, if_neg hj0]
      intro hcontra
      have hjm : j = m := by exact_mod_cast hcontra
      exact hnot (hjm ▸ hj)

/-- Witness for C3: on the duplicate-row state `wStDup` the removal set is
exactly `[1]`; it is in range and row 0 is not removed. -/
theorem c3_witness :
    (∀ j ∈ dupSeconds true wOracle (1/2) 1 wStDup, j < wStDup.nSamples) ∧
      0 ∉ dupSeconds true wOracle (1/2) 1 wStDup := by
  have hd : dupSeconds true wOracle (1/2) 1 wStDup = [1] := by
    simp only [dupSeconds]
    rw [wStDup_find]
    rfl
  have hvalid : ∀ j ∈ dupSeconds true wOracle (1/2) 1 wStDup,
      j < wStDup.nSamples := by
    rw [hd]
    intro j hj
    rw [List.mem_singleton] at hj
    subst hj
    decide
  exact ⟨hvalid,
    (c3_remove_duplicates_seconds true wOracle (1/2) 1 wStDup rfl
      hvalid).2.2.2.2.1⟩

/-- Claim C4, amended: `_remove_indices` on the empty index set is a no-op
(matrix, timestamps, labels, `n_samples`, `n_dim` all unchanged: the state
is returned exactly as given), but it returns `None` rather than the
current stats — the source hits the bare `return` in the
`len(removing) == 0` branch before ever calling `basic_stats`. -/
theorem c4_empty_noop {τ ℓ : Type} (st : State τ ℓ) :
    removeIndices ([] : List ℤ) st =
      Except.ok (none, st, if st.verbose then [logZeroRemoved] else []) := rfl

/-- Counterexample for C4 as stated: on a concrete state, the value
returned for the empty index set is `None`, which is not the `BasicStats`
value the claim promises. -/
theorem c4_counterexample :
    removeIndices ([] : List ℤ) wStTwo = Except.ok (none, wStTwo, []) ∧
      (none : Option Stats) ≠ some (basicStats wStTwo).1 := by
  constructor
  · rfl
  · simp

/-- Claim C5, amended: an index set containing an index outside numpy's
accepted range `[-N, N)` (that is, some `i` with `i < -N` or `i ≥ N`) makes
`_remove_indices` raise `IndexError` at the local mask assignment, before
any observable field of the object is written (in this model: the error is
returned and no updated state is produced).  Indices in `[-N, 0)`, although
outside the spec's `[0, N)`, do not raise: numpy wraps them to `N + i`. -/
theorem c5_oob_index_error {τ ℓ : Type} (removing : List ℤ) (st : State τ ℓ)
    (h : ∃ i ∈ removing, i < -(st.nSamples : ℤ) ∨ (st.nSamples : ℤ) ≤ i) :
    removeIndices removing st = Except.error PyError.indexError := by
  obtain ⟨i, hi, hcase⟩ := h
  have hne : ¬ removing.length = 0 := by
    simpa [List.length_eq_zero] using List.ne_nil_of_mem hi
  have ho : oobCheck st.nSamples removing = true :=
    (oobCheck_eq_true_iff _ _).mpr ⟨i, hi, hcase⟩
  rw [removeIndices_eval, if_neg hne, ho]
  simp

/-- Witness for C5 (amended): index 5 against a 2-row state raises. -/
theorem c5_witness :
    removeIndices [(5 : ℤ)] wStTwo = Except.error PyError.indexError :=
  c5_oob_index_error [(5 : ℤ)] wStTwo ⟨5, by simp, Or.inr (by decide)⟩

/-- Counterexample for C5 as stated: `-1` is outside `[0, N)` for the 2-row
state `wStTwo`, yet `_remove_indices` does not raise `IndexError` — numpy
wraps `-1` to row `N - 1` and the removal succeeds. -/
theorem c5_counterexample :
    ((-1 : ℤ) < 0 ∨ (wStTwo.nSamples : ℤ) ≤ -1) ∧
      removeIndices [(-1 : ℤ)] wStTwo ≠ Except.error PyError.indexError := by
  constructor
  · exact Or.inl (by decide)
  · rw [removeIndices_ok [(-1 : ℤ)] wStTwo (by decide) (by decide)]
    simp

/-- Claim C6 is violated by the code (code bug): neither the constructor
nor `set_labels` / `set_timestamps` validates the parallel-array length, so
a labels array of length 3 attached to a 2-row matrix is accepted silently
in both places instead of raising the spec's `ShapeError`. -/
theorem c6_no_shape_validation :
    (mkEmbedx [[(1 : ℝ)], [2]] true (none : Option (List ℤ))
        (some [(10 : ℤ), 20, 30])).labels = some [(10 : ℤ), 20, 30] ∧
      (mkEmbedx [[(1 : ℝ)], [2]] true (none : Option (List ℤ))
        (some [(10 : ℤ), 20, 30])).nSamples = 2 ∧
      setLabels (some [(7 : ℤ), 8, 9]) wStTwo =
        { wStTwo with labels := some [(7 : ℤ), 8, 9] } ∧
      setTimestamps (some [(4 : ℤ), 5, 6]) wStTwo =
        { wStTwo with timestamps := some [(4 : ℤ), 5, 6] } :=
  ⟨rfl, rfl, rfl, rfl⟩

/-- Claim C7: loading from a path whose extension is neither `.npy` nor
`.csv` fails with the unrecognized-format error (the spec's `FormatError`,
realized in the source as `ValueError("Unknown file format: ...")`), for
any load oracles. -/
theorem c7_load_unknown_extension (npyLoad csvLoad : String → List (List ℝ))
    (path : String) (h1 : endsWithExt path strNpy = false)
    (h2 : endsWithExt path strCsv = false) :
    loadEmbeddings npyLoad csvLoad path =
      Except.error (PyError.valueError msgUnknownFormat) := by
  simp [loadEmbeddings, h1, h2]

/-- Witness for C7: a `.txt` path. -/
theorem c7_witness :
    endsWithExt txtPath strNpy = false ∧ endsWithExt txtPath strCsv = false ∧
      loadEmbeddings (fun _ => []) (fun _ => []) txtPath =
        Except.error (PyError.valueError msgUnknownFormat) :=
  ⟨by decide, by decide,
    c7_load_unknown_extension (fun _ => []) (fun _ => []) txtPath
      (by decide) (by decide)⟩

/-- Claim C8: `normalize` divides each row by its L2 (method `l2`) or L1
(method `l1`) norm with zero norms replaced by 1, so a row with nonzero
sum of squares ends with L2 norm exactly 1 while an all-zero row is
returned unchanged; any unknown method fails with `ValueError` and no
updated state is produced (the source raises before reassigning
`self.embeddings`). -/
theorem c8_normalize {τ ℓ : Type} (st : State τ ℓ) (v : List ℝ) (m : String)
    (hm2 : m ≠ strL2) (hm1 : m ≠ strL1) :
    (sumSq v ≠ 0 → l2norm (normalizeRowBy (l2norm v) v) = 1) ∧
      ((∀ x ∈ v, x = 0) → normalizeRowBy (l2norm v) v = v) ∧
      (∃ st2 lg, normalize strL2 st = Except.ok (st2, lg) ∧
        st2.embeddings =
          st.embeddings.map (fun w => normalizeRowBy (l2norm w) w)) ∧
      (∃ st2 lg, normalize strL1 st = Except.ok (st2, lg) ∧
        st2.embeddings =
          st.embeddings.map (fun w => normalizeRowBy (l1norm w) w)) ∧
      normalize m st = Except.error (PyError.valueError msgUnknownMethod) := by
  refine ⟨?_, ?_, ?_, ?_, ?_⟩
  · intro h
    have hnz : l2norm v ≠ 0 := l2norm_ne_zero_of_sumSq_ne_zero v h
    have hcond : (if l2norm v = 0 then (1 : ℝ) else l2norm v) = l2norm v :=
      if_neg hnz
    have hsq : sumSq (v.map (fun x => x / l2norm v)) = 1 := by
      rw [sumSq_map_div, l2norm_mul_self, div_self h]
    have hstep : l2norm (v.map (fun x => x / l2norm v)) = 1 := by
      show Real.sqrt (sumSq (v.map (fun x => x / l2norm v))) = 1
      rw [hsq, Real.sqrt_one]
    simp only [normalizeRowBy, hcond]
    exact hstep
  · intro h
    simp [normalizeRowBy, l2norm_eq_zero_of_all_zero v h]
  · have h3 : normalize strL2 st = Except.ok
        ({ st with embeddings :=
            st.embeddings.map (fun w => normalizeRowBy (l2norm w) w) },
          if st.verbose then [logNormalized] else []) := by
      simp [normalize]
    exact ⟨_, _, h3, rfl⟩
  · have h3 : normalize strL1 st = Except.ok
        ({ st with embeddings :=
            st.embeddings.map (fun w => normalizeRowBy (l1norm w) w) },
          if st.verbose then [logNormalized] else []) := by
      simp [normalize, strL1, strL2]
    exact ⟨_, _, h3, rfl⟩
  · simp [normalize, hm2, hm1]

/-- Witness for C8: the row `[3, 4]` has nonzero sum of squares and is
normalized to unit L2 norm; the method string `bogus` is rejected. -/
theorem c8_witness :
    sumSq [(3 : ℝ), 4] ≠ 0 ∧
      l2norm (normalizeRowBy (l2norm [(3 : ℝ), 4]) [(3 : ℝ), 4]) = 1 ∧
      normalize strBogus wStTwo =
        Except.error (PyError.valueError msgUnknownMethod) := by
  have hb2 : strBogus ≠ strL2 := by decide
  have hb1 : strBogus ≠ strL1 := by decide
  have hs : sumSq [(3 : ℝ), 4] ≠ 0 := by
    norm_num [sumSq, dot]
  have h := c8_normalize wStTwo [(3 : ℝ), 4] strBogus hb2 hb1
  exact ⟨hs, h.1 hs, h.2.2.2.2⟩

theorem except_map_map {ε α β γ : Type} (f : β → γ) (g : α → β)
    (e : Except ε α) :
    Except.map f (Except.map g e) = Except.map (fun x => f (g x)) e := by
  cases e <;> rfl

theorem except_map_ok {ε α β : Type} (f : α → β) (x : α) :
    Except.map f (Except.ok x : Except ε α) = Except.ok (f x) := rfl

theorem except_map_error {ε α β : Type} (f : α → β) (e : ε) :
    Except.map f (Except.error e : Except ε α) = Except.error e := rfl

theorem dupSeconds_verbose {τ ℓ : Type} (fa : Bool) (oracle : ℕ → List ℕ)
    (th : ℝ) (k : ℕ) (st : State τ ℓ) (b : Bool) :
    dupSeconds fa oracle th k { st with verbose := b } =
      dupSeconds fa oracle th k st := rfl

/-- Claim C9: the `verbose` flag has no effect on returned values: each
value-returning operation gives the same value (and, for mutators, the same
resulting state up to its own stored `verbose` flag) whether invoked with
`verbose = true` or `verbose = false`; only the diagnostic log differs. -/
theorem c9_verbose_invariance {τ ℓ : Type} (st : State τ ℓ) (fa : Bool)
    (oracle : ℕ → List ℕ) (isoOracle : ℝ → List (List ℝ) → List ℕ)
    (th c : ℝ) (k : ℕ) (removing : List ℤ) (m : String)
    (ts : Option (List τ)) (lb : Option (List ℓ)) :
    (basicStats { st with verbose := true }).1 =
      (basicStats { st with verbose := false }).1 ∧
    (getDims { st with verbose := true }).1 =
      (getDims { st with verbose := false }).1 ∧
    devb (getDims { st with verbose := true }).2 =
      devb (getDims { st with verbose := false }).2 ∧
    (findDuplicates fa oracle th k { st with verbose := true }).1 =
      (findDuplicates fa oracle th k { st with verbose := false }).1 ∧
    (findOutliers isoOracle c { st with verbose := true }).1 =
      (findOutliers isoOracle c { st with verbose := false }).1 ∧
    Except.map (fun r => (r.1, devb r.2.1))
        (removeIndices removing { st with verbose := true }) =
      Except.map (fun r => (r.1, devb r.2.1))
        (removeIndices removing { st with verbose := false }) ∧
    Except.map (fun r => devb r.1)
        (removeDuplicates fa oracle th k { st with verbose := true }) =
      Except.map (fun r => devb r.1)
        (removeDuplicates fa oracle th k { st with verbose := false }) ∧
    Except.map (fun r => devb r.1)
        (removeOutliers isoOracle c { st with verbose := true }) =
      Except.map (fun r => devb r.1)
        (removeOutliers isoOracle c { st with verbose := false }) ∧
    Except.map (fun r => devb r.1)
        (normalize m { st with verbose := true }) =
      Except.map (fun r => devb r.1)
        (normalize m { st with verbose := false }) ∧
    devb (setLabels lb { st with verbose := true }) =
      devb (setLabels lb { st with verbose := false }) ∧
    devb (setTimestamps ts { st with verbose := true }) =
      devb (setTimestamps ts { st with verbose := false }) := by
  refine ⟨rfl, rfl, rfl, rfl, rfl, ?_, ?_, ?_, ?_, rfl, rfl⟩
  · rw [removeIndices_eval, removeIndices_eval]
    by_cases h1 : removing.length = 0
    · simp [h1, devb, except_map_ok]
    · by_cases h2 : oobCheck st.nSamples removing
      · simp [h1, h2, except_map_error]
      · simp [h1, h2, devb, removeStep, basicStats, except_map_ok]
  · simp only [removeDuplicates, dupSeconds_verbose, except_map_map]
    rw [removeIndices_eval, removeIndices_eval]
    by_cases h1 : dupSeconds fa oracle th k st = []
    · simp [h1, devb, except_map_ok]
    · by_cases h2 : oobCheck st.nSamples
          ((dupSeconds fa oracle th k st).map (fun j : ℕ => (j : ℤ)))
      · simp [h1, h2, except_map_error]
      · simp [h1, h2, devb, removeStep, basicStats, except_map_ok]
  · simp only [removeOutliers, findOutliers, except_map_map]
    rw [removeIndices_eval, removeIndices_eval]
    by_cases h1 : isoOracle c st.embeddings = []
    · simp [h1, devb, except_map_ok]
    · by_cases h2 : oobCheck st.nSamples
          ((isoOracle c st.embeddings).map (fun j : ℕ => (j : ℤ)))
      · simp [h1, h2, except_map_error]
      · simp [h1, h2, devb, removeStep, basicStats, except_map_ok]
  · by_cases hm2 : m = strL2
    · simp [normalize, hm2, devb, except_map_ok]
    · by_cases hm1 : m = strL1
      · simp [normalize, hm2, hm1, devb, except_map_ok, strL1, strL2]
      · simp [normalize, hm2, hm1, except_map_error]

end Embedx
